import Mathlib

/-!
Verification development for the `axis` multi-agent coordination service.

The definitions below are a shallow embedding of the local-only execution
mode of `NerveCenter` (src/src/local/nerve-center.ts): the mode in which
neither Supabase nor a remote API is configured, so every operation runs
against the in-process `NerveCenterState` object under the facade mutex.
JavaScript `Record<string, T>` objects are modelled as insertion-ordered
association lists, JS `Array.prototype.sort` (stable) as `List.mergeSort`,
and machine timestamps as natural numbers of milliseconds.  Nondeterministic
inputs of the source (generated ids and keys, `Date.now()`, filesystem
success) are passed as explicit parameters.
-/

namespace Axis

/-- Job priorities, `Job["priority"]` in nerve-center.ts. -/
inductive Priority
  | low
  | medium
  | high
  | critical
deriving DecidableEq

/-- Job statuses, `Job["status"]` in nerve-center.ts. -/
inductive JobStatus
  | todo
  | inProgress
  | done
  | cancelled
deriving DecidableEq

/-- The textual name of a priority, as stored in JS. -/
def priorityName : Priority → String
  | .low => "low"
  | .medium => "medium"
  | .high => "high"
  | .critical => "critical"

/-- `priorities.indexOf(p)` for `priorities = ["critical", "high", "medium", "low"]`
    (nerve-center.ts line 526). Lower is better. -/
def priorityIndex : Priority → Nat
  | .critical => 0
  | .high => 1
  | .medium => 2
  | .low => 3

/-- The `Job` interface of nerve-center.ts (local shape).  Optional fields of
    the TypeScript interface become `Option`. -/
structure Job where
  id : String
  title : String
  description : String
  priority : Priority
  status : JobStatus
  assignedTo : Option String
  dependencies : Option (List String)
  createdAt : Nat
  updatedAt : Nat
  completionKey : Option String
deriving DecidableEq

/-- The `FileLock` interface of nerve-center.ts. -/
structure FileLock where
  agentId : String
  filePath : String
  intent : String
  userPrompt : String
  timestamp : Nat
deriving DecidableEq

/-- `NerveCenterState`: `{ locks, jobs, liveNotepad }`.  The JS records are
    insertion-ordered maps, modelled as association lists. -/
structure NCState where
  locks : List (String × FileLock)
  jobs : List (String × Job)
  liveNotepad : String
deriving DecidableEq

/-- `LOCK_TIMEOUT_DEFAULT = 30 * 60 * 1000` (nerve-center.ts line 49), in ms. -/
def LOCK_TIMEOUT_DEFAULT : Nat := 30 * 60 * 1000

/-- JS record read `m[k]`. -/
def getEntry {α : Type} (m : List (String × α)) (k : String) : Option α :=
  (m.find? (fun e => e.1 == k)).map (fun e => e.2)

/-- JS record write `m[k] = v`: updates the first entry with key `k` in place,
    otherwise appends a new entry (JS records have unique keys, so "first"
    is "the" entry). -/
def setEntry {α : Type} (m : List (String × α)) (k : String) (v : α) :
    List (String × α) :=
  match m with
  | [] => [(k, v)]
  | e :: rest => if e.1 == k then (k, v) :: rest else e :: setEntry rest k v

/-- JS record delete `delete m[k]`. -/
def delEntry {α : Type} (m : List (String × α)) (k : String) :
    List (String × α) :=
  m.filter (fun e => !(e.1 == k))

/-- `Object.values(m)`, in insertion order. -/
def recValues {α : Type} (m : List (String × α)) : List α :=
  m.map (fun e => e.2)

/-- `new Map(allJobs.map(j => [j.id, j])).get(d)`: for duplicate ids the last
    entry wins, exactly as in a JS `Map` built by successive `set`s. -/
def mapGetJob (jobs : List Job) (d : String) : Option Job :=
  jobs.foldl (fun acc j => if j.id == d then some j else acc) none

/-- `!job.dependencies || job.dependencies.length === 0` handling folded with
    `every`: the dependency list of a job, `[]` when absent. -/
def depsOf (j : Job) : List String :=
  j.dependencies.getD []

/-- `job.dependencies.every(depId => jobsById.get(depId)?.status === "done")`
    (nerve-center.ts lines 531-534): a missing dependency id yields
    `undefined ≠ "done"` and blocks. -/
def depsMet (all : List Job) (j : Job) : Bool :=
  (depsOf j).all (fun d =>
    match mapGetJob all d with
    | some dep => dep.status == .done
    | none => false)

/-- `isStale = (Date.now() - existing.timestamp) > this.lockTimeout`
    (nerve-center.ts line 846).  JS number subtraction may be negative, hence
    the `Int` arithmetic. -/
def isStale (now ts timeout : Nat) : Bool :=
  decide ((now : Int) - (ts : Int) > (timeout : Int))

/-- A lock is live when it is not stale: `now − updated_at ≤ TTL`. -/
def lockLive (now ts timeout : Nat) : Bool :=
  !(isStale now ts timeout)

/-- The sort comparator of `claimNextJob` (nerve-center.ts lines 535-540),
    as the boolean relation "sorts no later than": `cmp(a,b) ≤ 0` for
    `cmp = (a,b) => pA ≠ pB ? pA - pB : a.createdAt - b.createdAt`. -/
def jobLE (a b : Job) : Bool :=
  if priorityIndex a.priority == priorityIndex b.priority
  then a.createdAt ≤ b.createdAt
  else priorityIndex a.priority < priorityIndex b.priority

/-- `jobLE` as a relation, for use with `List.insertionSort`. -/
def JobLE (a b : Job) : Prop := jobLE a b = true

instance : DecidableRel JobLE :=
  fun a b => inferInstanceAs (Decidable (jobLE a b = true))

/-- The eligible set of `claimNextJob` before sorting: todo jobs whose direct
    dependencies are all done (nerve-center.ts lines 529-534). -/
def eligibleJobs (s : NCState) : List Job :=
  let all := recValues s.jobs
  (all.filter (fun j => j.status == .todo)).filter (fun j => depsMet all j)

/-- `availableJobs` after the sort.  JS `Array.prototype.sort` is a stable
    sort under the total preorder `jobLE` induced by the comparator, and the
    stable sort of a list is unique; `List.insertionSort` is stable (it keeps
    the original relative order of ties), hence it is a faithful model. -/
def availableJobs (s : NCState) : List Job :=
  (eligibleJobs s).insertionSort JobLE

/-- `this.state.liveNotepad += text` inside `appendToNotepad`. -/
def appendNotepad (s : NCState) (text : String) : NCState :=
  { s with liveNotepad := s.liveNotepad ++ text }

/-- Uppercasing as in JS `String.prototype.toUpperCase` (ASCII inputs). -/
def strToUpper (s : String) : String :=
  ⟨s.data.map Char.toUpper⟩

/-- Result of `postJob`: `{ jobId: id, status: "POSTED", completionKey }`. -/
structure PostResult where
  jobId : String
  status : String
  completionKey : String
deriving DecidableEq

/-- Result of `claimNextJob`. -/
inductive ClaimResult
  | claimed (job : Job)
  | noJobs
deriving DecidableEq

/-- Result of `completeJob`. -/
inductive CompleteResult
  | completed
  | error (msg : String)
deriving DecidableEq

/-- Result of `proposeFileAccess`. -/
inductive ProposeResult
  | granted
  | requiresOrchestration (currentLock : FileLock)
deriving DecidableEq

/-- Result of `finalizeSession`: the returned record plus, for the model, the
    archive content actually written to disk (`none` when `fs.writeFile`
    failed, which the source only logs). -/
structure FinalizeResult where
  status : String
  archivePath : String
  archive : Option String
deriving DecidableEq

/-- The notepad line of `postJob` (nerve-center.ts lines 500-501). -/
def postLogLine (p : Priority) (title id : String) (deps : List String) :
    String :=
  let depText := if deps.isEmpty then ""
    else " (Depends on: " ++ String.intercalate ", " deps ++ ")"
  "\n- [JOB POSTED] [" ++ strToUpper (priorityName p) ++ "] " ++ title ++
    " (ID: " ++ id ++ ")" ++ depText

/-- `postJob` in local-only mode (nerve-center.ts lines 454-505): the
    generated id, generated completion key, and `Date.now()` are explicit
    parameters. -/
def postJob (id completionKey : String) (now : Nat)
    (title description : String) (priority : Priority)
    (dependencies : List String) (s : NCState) : NCState × PostResult :=
  let job : Job :=
    { id := id, title := title, description := description,
      priority := priority, status := .todo, assignedTo := none,
      dependencies := some dependencies, createdAt := now, updatedAt := now,
      completionKey := some completionKey }
  let s1 := { s with jobs := setEntry s.jobs id job }
  (appendNotepad s1 (postLogLine priority title id dependencies),
   { jobId := id, status := "POSTED", completionKey := completionKey })

/-- `claimNextJob` in local-only mode (nerve-center.ts lines 507-576):
    the candidate is the head of the sorted available list; on success its
    status becomes in_progress, `assignedTo` is set and a notepad line is
    appended. -/
def claimNextJob (agentId : String) (now : Nat) (s : NCState) :
    NCState × ClaimResult :=
  match availableJobs s with
  | [] => (s, .noJobs)
  | candidate :: _ =>
    let job := { candidate with
      status := .inProgress, assignedTo := some agentId, updatedAt := now }
    let s1 := { s with jobs := setEntry s.jobs candidate.id job }
    (appendNotepad s1
      ("\n- [JOB CLAIMED] Agent '" ++ agentId ++ "' picked up: " ++ job.title),
     .claimed job)

/-- `cancelJob` in local-only mode (nerve-center.ts lines 578-602): the status
    is set to cancelled unconditionally when the job exists; the notepad line
    is appended either way and `"Job cancelled."` returned. -/
def cancelJob (jobId reason : String) (now : Nat) (s : NCState) :
    NCState × String :=
  let s1 :=
    match getEntry s.jobs jobId with
    | some job =>
      let job1 := { job with status := .cancelled, updatedAt := now }
      { s with jobs := setEntry s.jobs jobId job1 }
    | none => s
  (appendNotepad s1
    ("\n- [JOB CANCELLED] ID: " ++ jobId ++ ". Reason: " ++ reason),
   "Job cancelled.")

/-- `isKeyValid = completionKey && job.completionKey === completionKey`
    (nerve-center.ts line 651): an absent or empty supplied key is falsy. -/
def keyValid (job : Job) (completionKey : Option String) : Bool :=
  match completionKey with
  | some k => !(k == "") && job.completionKey == some k
  | none => false

/-- `completeJob` in local-only mode (nerve-center.ts lines 604-662, local
    branch at 647-660): dual authorisation by assignee identity or by
    completion key; errors leave the state untouched. -/
def completeJob (agentId jobId outcome : String)
    (completionKey : Option String) (now : Nat) (s : NCState) :
    NCState × CompleteResult :=
  match getEntry s.jobs jobId with
  | none => (s, .error "Job not found")
  | some job =>
    let isOwner := job.assignedTo == some agentId
    if !isOwner && !(keyValid job completionKey) then
      (s, .error "You don't own this job and provided no valid key.")
    else
      let job1 := { job with status := .done, updatedAt := now }
      let s1 := { s with jobs := setEntry s.jobs jobId job1 }
      (appendNotepad s1
        ("\n- [JOB DONE] Agent '" ++ agentId ++ "' finished: " ++ job.title ++
         "\n  Outcome: " ++ outcome),
       .completed)

/-- `forceUnlock` in local-only mode (nerve-center.ts lines 664-688). -/
def forceUnlock (filePath reason : String) (s : NCState) : NCState × String :=
  let s1 :=
    match getEntry s.locks filePath with
    | some _ => { s with locks := delEntry s.locks filePath }
    | none => s
  (appendNotepad s1
    ("\n- [FORCE UNLOCK] " ++ filePath ++ " unlocked by admin. Reason: " ++
     reason),
   "File " ++ filePath ++ " has been forcibly unlocked.")

/-- `proposeFileAccess` in local-only mode (nerve-center.ts lines 840-862):
    find the current lock by file path among the lock values; a live lock
    held by a different agent yields REQUIRES_ORCHESTRATION without any state
    change; otherwise the lock is overwritten for the requester. -/
def proposeFileAccess (lockTimeout : Nat) (agentId filePath intent : String)
    (userPrompt : String) (now : Nat) (s : NCState) :
    NCState × ProposeResult :=
  let locks := recValues s.locks
  let blocked :=
    match locks.find? (fun l => l.filePath == filePath) with
    | some existing =>
      if !(isStale now existing.timestamp lockTimeout) &&
          !(existing.agentId == agentId)
      then some existing else none
    | none => none
  match blocked with
  | some existing => (s, .requiresOrchestration existing)
  | none =>
    let newLock : FileLock :=
      { agentId := agentId, filePath := filePath, intent := intent,
        userPrompt := userPrompt, timestamp := now }
    let s1 := { s with locks := setEntry s.locks filePath newLock }
    (appendNotepad s1
      ("\n- [LOCK] " ++ agentId ++ " locked " ++ filePath ++ "\n  Intent: " ++
       intent),
     .granted)

/-- `updateSharedContext` (nerve-center.ts lines 865-870). -/
def updateSharedContext (text agentId : String) (s : NCState) :
    NCState × String :=
  (appendNotepad s ("\n- [" ++ agentId ++ "] " ++ text), "Notepad updated.")

/-- The JS regex replace `isoNow.replace(/[:.]/g, "-")` used for the archive
    filename: a per-character substitution. -/
def sanitizeIso (iso : String) : String :=
  ⟨iso.data.map (fun c => if c == ':' || c == '.' then '-' else c)⟩

/-- `finalizeSession` in local-only mode (nerve-center.ts lines 872-937):
    reads the notepad, attempts the archive write (a failure is only logged —
    `archiveOk` is the outcome of `fs.writeFile`), then unconditionally resets
    notepad, locks and terminal jobs and reports SESSION_FINALIZED. -/
def finalizeSession (isoNow : String) (archiveOk : Bool) (s : NCState) :
    NCState × FinalizeResult :=
  let content := s.liveNotepad
  let archivePath := "history/session-" ++ sanitizeIso isoNow ++ ".md"
  let archive := if archiveOk then some content else none
  let s1 : NCState :=
    { liveNotepad := "Session Start: " ++ isoNow ++ "\n",
      locks := [],
      jobs := s.jobs.filter (fun e =>
        !(e.2.status == .done) && !(e.2.status == .cancelled)) }
  (s1, { status := "SESSION_FINALIZED", archivePath := archivePath,
         archive := archive })

/-- The completion-key generator of `postJob` (nerve-center.ts line 457):
    `Math.random().toString(36).substring(2, 10).toUpperCase()`, as a
    function of the string form of the random number. -/
def genCompletionKey (randomToString36 : String) : String :=
  strToUpper ((randomToString36.drop 2).take 8)

/-- The id of a claimed job, if any. -/
def resultId : ClaimResult → Option String
  | .claimed j => some j.id
  | .noJobs => none

/-- The empty initial state (constructor at nerve-center.ts lines 120-124,
    abstracting the session-start timestamp). -/
def ncInit (iso : String) : NCState :=
  { locks := [], jobs := [], liveNotepad := "Session Start: " ++ iso ++ "\n" }

/-! Concrete runs used by scenario conjuncts, witnesses and counterexamples. -/

/-- Scenario S4, step 1: post J1 with priority medium at time 1. -/
def s4a : NCState := (postJob "J1" "K1" 1 "t1" "d1" .medium [] (ncInit "I")).1

/-- Scenario S4, step 2: post J2 with priority high at time 2. -/
def s4b : NCState := (postJob "J2" "K2" 2 "t2" "d2" .high [] s4a).1

/-- Scenario S4, step 3: post J3 with priority high at time 3. -/
def s4c : NCState := (postJob "J3" "K3" 3 "t3" "d3" .high [] s4b).1

/-- A state with a single claimable job, reached by posting. -/
def sW : NCState := (postJob "j1" "KEY" 1 "T" "D" .medium [] (ncInit "I")).1

/-- `sW` after agent A claims the job. -/
def sW1 : NCState := (claimNextJob "A" 2 sW).1

/-- The job of `sW` as claimed by agent A at time 2. -/
def jW : Job :=
  { id := "j1", title := "T", description := "D", priority := .medium,
    status := .inProgress, assignedTo := some "A", dependencies := some [],
    createdAt := 1, updatedAt := 2, completionKey := some "KEY" }

/-- A reachable state whose job holds the empty completion key: posting with
    the key generated from `Math.random() = 0` (which is `""`), then a claim
    by agent A. -/
def sE1 : NCState :=
  (claimNextJob "A" 2
    (postJob "j1" (genCompletionKey "0") 1 "T" "D" .medium [] (ncInit "I")).1).1

/-- The job stored in `sE1`. -/
def jE : Job :=
  { id := "j1", title := "T", description := "D", priority := .medium,
    status := .inProgress, assignedTo := some "A", dependencies := some [],
    createdAt := 1, updatedAt := 2, completionKey := some "" }

/-- A state with one done job, one todo job, a lock and a notepad. -/
def sF : NCState :=
  { locks := [("f", { agentId := "A", filePath := "f", intent := "i",
                      userPrompt := "p", timestamp := 0 })],
    jobs := [("d1", { id := "d1", title := "td", description := "",
                      priority := .low, status := .done,
                      assignedTo := some "A", dependencies := some [],
                      createdAt := 0, updatedAt := 0,
                      completionKey := some "K" }),
             ("t1", { id := "t1", title := "tt", description := "",
                      priority := .low, status := .todo, assignedTo := none,
                      dependencies := some [], createdAt := 0, updatedAt := 0,
                      completionKey := some "K2" })],
    liveNotepad := "NOTES" }

/-- The done job of `sF`. -/
def jD : Job :=
  { id := "d1", title := "td", description := "", priority := .low,
    status := .done, assignedTo := some "A", dependencies := some [],
    createdAt := 0, updatedAt := 0, completionKey := some "K" }

/-- A state with a cancelled job assigned to agent A. -/
def sX : NCState :=
  { locks := [], liveNotepad := "",
    jobs := [("j1", { id := "j1", title := "t", description := "",
                      priority := .low, status := .cancelled,
                      assignedTo := some "A", dependencies := none,
                      createdAt := 0, updatedAt := 0,
                      completionKey := some "K" })] }

/-- A dependency chain C → B → A where B is done but its own dependency A is
    still todo: only direct dependencies gate claiming. -/
def sT : NCState :=
  { locks := [], liveNotepad := "",
    jobs := [("A", { id := "A", title := "a", description := "",
                     priority := .low, status := .todo, assignedTo := none,
                     dependencies := some ["Z"], createdAt := 0,
                     updatedAt := 0, completionKey := none }),
             ("B", { id := "B", title := "b", description := "",
                     priority := .low, status := .done, assignedTo := none,
                     dependencies := some ["A"], createdAt := 1,
                     updatedAt := 1, completionKey := none }),
             ("C", { id := "C", title := "c", description := "",
                     priority := .critical, status := .todo,
                     assignedTo := none, dependencies := some ["B"],
                     createdAt := 2, updatedAt := 2,
                     completionKey := none })] }

/-- `sT` after agent X claims. -/
def sT1 : NCState := (claimNextJob "X" 10 sT).1

/-- The job of `sT` claimed by agent X at time 10. -/
def jT : Job :=
  { id := "C", title := "c", description := "", priority := .critical,
    status := .inProgress, assignedTo := some "X", dependencies := some ["B"],
    createdAt := 2, updatedAt := 10, completionKey := none }

/-- A state holding a stale lock by agent A (timestamp 0, probed at a time
    beyond the default TTL). -/
def sL : NCState :=
  { locks := [("src/x.ts", { agentId := "A", filePath := "src/x.ts",
                             intent := "edit", userPrompt := "prompt-a",
                             timestamp := 0 })],
    jobs := [], liveNotepad := "" }

/-- The lock held in `sL`. -/
def lockA : FileLock :=
  { agentId := "A", filePath := "src/x.ts", intent := "edit",
    userPrompt := "prompt-a", timestamp := 0 }

/-- The externally triggered facade operations, with every nondeterministic
    input of the source (generated ids and keys, `Date.now()` readings, the
    filesystem outcome) made an explicit parameter. -/
inductive Op
  | post (id key : String) (now : Nat) (title description : String)
      (p : Priority) (deps : List String)
  | claim (agent : String) (now : Nat)
  | complete (agent jobId outcome : String) (key : Option String) (now : Nat)
  | cancel (jobId reason : String) (now : Nat)
  | propose (tmo : Nat) (agent f intent prompt : String) (now : Nat)
  | unlock (f reason : String)
  | note (agent text : String)
  | finalize (iso : String) (ok : Bool)
deriving DecidableEq

/-- The state transition of one operation. -/
def applyOp (s : NCState) : Op → NCState
  | .post id key now t d p deps => (postJob id key now t d p deps s).1
  | .claim a now => (claimNextJob a now s).1
  | .complete a j o k now => (completeJob a j o k now s).1
  | .cancel j r now => (cancelJob j r now s).1
  | .propose tmo a f i p now => (proposeFileAccess tmo a f i p now s).1
  | .unlock f r => (forceUnlock f r s).1
  | .note a t => (updateSharedContext t a s).1
  | .finalize iso ok => (finalizeSession iso ok s).1

/-- Run a sequence of operations from a state. -/
def run (s : NCState) (ops : List Op) : NCState :=
  ops.foldl applyOp s

/-- The id of the job an operation claims (with status CLAIMED), if any. -/
def claimedId (s : NCState) : Op → Option String
  | .claim a now => resultId (claimNextJob a now s).2
  | _ => none

/-- The id under which a post operation inserts its job, if any. -/
def postId : Op → Option String
  | .post id _ _ _ _ _ _ => some id
  | _ => none

/-- Well-formedness of the job board: record keys are unique and every job
    is stored under its own id.  This holds for every state the program
    itself builds (`postJob` keys each job by its generated id). -/
def Wf (s : NCState) : Prop :=
  (s.jobs.map (fun e => e.1)).Nodup ∧ ∀ e ∈ s.jobs, e.2.id = e.1

/-- The job stored under the given id, if any, is no longer in todo. -/
def NotTodo (s : NCState) (jid : String) : Prop :=
  ∀ j, getEntry s.jobs jid = some j → j.status ≠ .todo

/-! ### Helper lemmas about the record-map operations -/

theorem getEntry_cons_eq {α : Type} (e : String × α) (l : List (String × α))
    (k : String) (h : (e.1 == k) = true) :
    getEntry (e :: l) k = some e.2 := by
  simp [getEntry, List.find?, h]

theorem getEntry_cons_ne {α : Type} (e : String × α) (l : List (String × α))
    (k : String) (h : (e.1 == k) = false) :
    getEntry (e :: l) k = getEntry l k := by
  simp [getEntry, List.find?, h]

theorem getEntry_setEntry_self {α : Type} (m : List (String × α)) (k : String)
    (v : α) : getEntry (setEntry m k v) k = some v := by
  induction m with
  | nil => simp [setEntry, getEntry, List.find?]
  | cons e rest ih =>
    unfold setEntry
    by_cases h : e.1 = k
    · simp only [h, beq_self_eq_true, if_true]
      exact getEntry_cons_eq (k, v) rest k (by simp)
    · have hb : (e.1 == k) = false := by simp [h]
      simp only [hb, Bool.false_eq_true, if_false]
      rw [getEntry_cons_ne e _ k hb]
      exact ih

theorem getEntry_setEntry_ne {α : Type} (m : List (String × α)) (k k' : String)
    (v : α) (h : k' ≠ k) :
    getEntry (setEntry m k v) k' = getEntry m k' := by
  have hkk : (k == k') = false := by simp [Ne.symm h]
  induction m with
  | nil =>
    show getEntry [(k, v)] k' = getEntry [] k'
    rw [getEntry_cons_ne (k, v) [] k' hkk]
  | cons e rest ih =>
    unfold setEntry
    by_cases he : e.1 = k
    · simp only [he, beq_self_eq_true, if_true]
      rw [getEntry_cons_ne (k, v) rest k' hkk,
          getEntry_cons_ne e rest k' (by simp [he, Ne.symm h])]
    · have hb : (e.1 == k) = false := by simp [he]
      simp only [hb, Bool.false_eq_true, if_false]
      by_cases he' : e.1 = k'
      · rw [getEntry_cons_eq e _ k' (by simp [he']),
            getEntry_cons_eq e rest k' (by simp [he'])]
      · rw [getEntry_cons_ne e _ k' (by simp [he']),
            getEntry_cons_ne e rest k' (by simp [he'])]
        exact ih

theorem getEntry_mem {α : Type} {m : List (String × α)} {k : String} {v : α}
    (h : getEntry m k = some v) : (k, v) ∈ m := by
  unfold getEntry at h
  cases hf : m.find? (fun e => e.1 == k) with
  | none => simp [hf] at h
  | some e =>
    have hm := List.mem_of_find?_eq_some hf
    have hp := List.find?_some hf
    simp only [beq_iff_eq] at hp
    rw [hf] at h
    have hv : e.2 = v := by simpa using h
    have hev : (k, v) = e := by
      cases e
      simp only at hp hv
      simp [hp, hv]
    rw [hev]
    exact hm

theorem getEntry_key_mem {α : Type} {m : List (String × α)} {k : String}
    {v : α} (h : getEntry m k = some v) : k ∈ m.map (fun e => e.1) := by
  have := getEntry_mem h
  exact List.mem_map.mpr ⟨(k, v), this, rfl⟩

theorem getEntry_of_mem_nodup {α : Type} {m : List (String × α)} {k : String}
    {v : α} (hnd : (m.map (fun e => e.1)).Nodup) (hm : (k, v) ∈ m) :
    getEntry m k = some v := by
  induction m with
  | nil => cases hm
  | cons e rest ih =>
    rw [List.map_cons, List.nodup_cons] at hnd
    rcases List.mem_cons.mp hm with he | hrest
    · subst he
      exact getEntry_cons_eq (k, v) rest k (by simp)
    · by_cases hk : e.1 = k
      · exfalso
        exact hnd.1 (hk ▸ List.mem_map.mpr ⟨(k, v), hrest, rfl⟩)
      · rw [getEntry_cons_ne e rest k (by simp [hk])]
        exact ih hnd.2 hrest

theorem keys_setEntry {α : Type} (m : List (String × α)) (k : String) (v : α) :
    (setEntry m k v).map (fun e => e.1) =
      if k ∈ m.map (fun e => e.1) then m.map (fun e => e.1)
      else m.map (fun e => e.1) ++ [k] := by
  induction m with
  | nil => simp [setEntry]
  | cons e rest ih =>
    unfold setEntry
    by_cases he : e.1 = k
    · simp [he]
    · have hb : (e.1 == k) = false := by simp [he]
      by_cases hk : k ∈ rest.map (fun e => e.1) <;>
        simp [hb, hk, Ne.symm he, ih]

theorem nodup_keys_setEntry {α : Type} {m : List (String × α)} (k : String)
    (v : α) (h : (m.map (fun e => e.1)).Nodup) :
    ((setEntry m k v).map (fun e => e.1)).Nodup := by
  rw [keys_setEntry]
  by_cases hk : k ∈ m.map (fun e => e.1)
  · simpa [hk] using h
  · rw [if_neg hk, List.nodup_append]
    refine ⟨h, List.nodup_singleton k, ?_⟩
    intro a ha hb
    rw [List.mem_singleton] at hb
    subst hb
    exact hk ha

theorem mem_setEntry {α : Type} {m : List (String × α)} {k : String} {v : α}
    {e : String × α} (h : e ∈ setEntry m k v) : e = (k, v) ∨ e ∈ m := by
  induction m with
  | nil =>
    simp [setEntry] at h
    exact Or.inl h
  | cons e0 rest ih =>
    unfold setEntry at h
    by_cases he : e0.1 = k
    · simp only [he, beq_self_eq_true, if_true, List.mem_cons] at h
      rcases h with h | h
      · exact Or.inl h
      · exact Or.inr (List.mem_cons.mpr (Or.inr h))
    · have hb : (e0.1 == k) = false := by simp [he]
      simp only [hb, Bool.false_eq_true, if_false, List.mem_cons] at h
      rcases h with h | h
      · exact Or.inr (List.mem_cons.mpr (Or.inl h))
      · rcases ih h with h' | h'
        · exact Or.inl h'
        · exact Or.inr (List.mem_cons.mpr (Or.inr h'))

theorem getEntry_filter_nodup {α : Type} {m : List (String × α)}
    {p : String × α → Bool} {k : String} {v : α}
    (hnd : (m.map (fun e => e.1)).Nodup)
    (h : getEntry (m.filter p) k = some v) : getEntry m k = some v := by
  induction m with
  | nil => simp [getEntry] at h
  | cons e rest ih =>
    rw [List.map_cons, List.nodup_cons] at hnd
    by_cases he : e.1 = k
    · cases hpe : p e with
      | true =>
        simp only [List.filter_cons, hpe, if_true] at h
        rw [getEntry_cons_eq e (rest.filter p) k (by simp [he])] at h
        rw [getEntry_cons_eq e rest k (by simp [he])]
        exact h
      | false =>
        exfalso
        simp only [List.filter_cons, hpe, Bool.false_eq_true, if_false] at h
        have hk := getEntry_key_mem h
        have hin : k ∈ rest.map (fun e => e.1) := by
          have hsub : (rest.filter p).map (fun e => e.1) ⊆
              rest.map (fun e => e.1) :=
            List.map_subset _ (fun x hx => List.mem_of_mem_filter hx)
          exact hsub hk
        exact hnd.1 (he ▸ hin)
    · have hb : (e.1 == k) = false := by simp [he]
      cases hpe : p e with
      | true =>
        simp only [List.filter_cons, hpe, if_true] at h
        rw [getEntry_cons_ne e (rest.filter p) k hb] at h
        rw [getEntry_cons_ne e rest k hb]
        exact ih hnd.2 h
      | false =>
        simp only [List.filter_cons, hpe, Bool.false_eq_true, if_false] at h
        rw [getEntry_cons_ne e rest k hb]
        exact ih hnd.2 h

theorem find_recValues_setEntry (m : List (String × FileLock)) (f : String)
    (v : FileLock) (hkeys : ∀ e ∈ m, e.1 = e.2.filePath)
    (hv : v.filePath = f) :
    (recValues (setEntry m f v)).find? (fun l => l.filePath == f) = some v := by
  induction m with
  | nil => simp [setEntry, recValues, List.find?, hv]
  | cons e rest ih =>
    unfold setEntry
    by_cases he : e.1 = f
    · simp [recValues, List.find?, hv, he]
    · have hef : (e.2.filePath == f) = false := by
        have := hkeys e (List.mem_cons_self e rest)
        simp [← this, he]
      have hb : (e.1 == f) = false := by simp [he]
      have ih' := ih (fun e' he' => hkeys e' (List.mem_cons.mpr (Or.inr he')))
      simpa [recValues, List.find?, hb, hef] using ih'

/-! ### The claim comparator is a total preorder -/

theorem jobLE_refl (a : Job) : JobLE a a := by
  simp [JobLE, jobLE]

theorem jobLE_iff (a b : Job) : JobLE a b ↔
    priorityIndex a.priority < priorityIndex b.priority ∨
      (priorityIndex a.priority = priorityIndex b.priority ∧
        a.createdAt ≤ b.createdAt) := by
  unfold JobLE jobLE
  by_cases h : priorityIndex a.priority = priorityIndex b.priority <;> simp [h]

instance : IsTotal Job JobLE where
  total a b := by
    rw [jobLE_iff, jobLE_iff]
    omega

instance : IsTrans Job JobLE where
  trans a b c hab hbc := by
    rw [jobLE_iff] at hab hbc ⊢
    omega

/-- The key-authorisation test of `completeJob` as a proposition: a key is
    valid when one was supplied, it is non-empty (JS truthiness) and it
    equals the stored key. -/
theorem keyValid_iff (job : Job) (key : Option String) :
    keyValid job key = true ↔
      ∃ k, key = some k ∧ k ≠ "" ∧ job.completionKey = some k := by
  cases key with
  | none => simp [keyValid]
  | some k =>
    simp only [keyValid, Bool.and_eq_true, Bool.not_eq_true', beq_iff_eq,
      beq_eq_false_iff_ne, ne_eq, Option.some.injEq]
    constructor
    · rintro ⟨h1, h2⟩
      exact ⟨k, rfl, h1, h2⟩
    · rintro ⟨k', hk', h1, h2⟩
      subst hk'
      exact ⟨h1, h2⟩

/-- **C1 (amended).** For every job J present on the board,
    `complete_job(agent_id, J, outcome, completion_key?)` returns COMPLETED
    iff agent_id equals J's assignee or the supplied completion key is
    **non-empty** and equals J's stored key; in every other case it returns
    an error and the whole state — J included — is unchanged.  (The
    non-emptiness proviso is forced by JS truthiness: see the
    counterexample.) -/
theorem completeJob_authorisation (s : NCState)
    (agentId jobId outcome : String) (key : Option String) (now : Nat)
    (job : Job) (hj : getEntry s.jobs jobId = some job) :
    ((completeJob agentId jobId outcome key now s).2 = .completed ↔
      (job.assignedTo = some agentId ∨
        ∃ k, key = some k ∧ k ≠ "" ∧ job.completionKey = some k))
    ∧ ((completeJob agentId jobId outcome key now s).2 ≠ .completed →
        (completeJob agentId jobId outcome key now s).1 = s) := by
  have hauth : ((job.assignedTo == some agentId) || keyValid job key) = true ↔
      (job.assignedTo = some agentId ∨
        ∃ k, key = some k ∧ k ≠ "" ∧ job.completionKey = some k) := by
    rw [Bool.or_eq_true, beq_iff_eq, keyValid_iff]
  by_cases hc : ((job.assignedTo == some agentId) || keyValid job key) = true
  · have hcc : (!(job.assignedTo == some agentId) && !(keyValid job key)) =
        false := by
      rcases Bool.or_eq_true .. |>.mp hc with h | h <;> simp [h]
    constructor
    · simp only [completeJob, hj, hcc, Bool.false_eq_true, if_false]
      exact ⟨fun _ => hauth.mp hc, fun _ => by trivial⟩
    · intro hne
      exfalso
      apply hne
      simp only [completeJob, hj, hcc, Bool.false_eq_true, if_false]
  · have hcc : (!(job.assignedTo == some agentId) && !(keyValid job key)) =
        true := by
      rcases Bool.or_eq_false_iff.mp (Bool.eq_false_iff.mpr hc) with ⟨h1, h2⟩
      simp [h1, h2]
    constructor
    · simp only [completeJob, hj, hcc, if_true]
      constructor
      · intro h
        cases h
      · intro h
        exact absurd (hauth.mpr h) hc
    · intro _
      simp only [completeJob, hj, hcc, if_true]

/-- **C1 witness.** The amended authorisation theorem applied to the
    reachable state `sE1`: the assignee A completes without a key. -/
theorem completeJob_authorisation_witness :
    ((completeJob "A" "j1" "out" none 5 sE1).2 = .completed ↔
      (jE.assignedTo = some "A" ∨
        ∃ k, (none : Option String) = some k ∧ k ≠ "" ∧
          jE.completionKey = some k))
    ∧ ((completeJob "A" "j1" "out" none 5 sE1).2 ≠ .completed →
        (completeJob "A" "j1" "out" none 5 sE1).1 = sE1) :=
  completeJob_authorisation sE1 "A" "j1" "out" none 5 jE (by decide)

/-- **C4.** For every lock L on file f with `now − updated_at > TTL`
    (the default TTL being 30 minutes), a subsequent `propose_file_access`
    by any agent B returns GRANTED and replaces L with a lock owned by B
    carrying B's intent, prompt and a fresh timestamp; and a lock is live
    iff `now − updated_at ≤ TTL`.  The hypothesis `hkeys` states the lock
    registry's key discipline (every entry is keyed by its file path), which
    holds for every lock the code itself writes. -/
theorem proposeFileAccess_ttl_reclaim (timeout : Nat)
    (s : NCState) (B f intent prompt : String) (now : Nat) (L : FileLock)
    (hkeys : ∀ e ∈ s.locks, e.1 = e.2.filePath)
    (hfind : (recValues s.locks).find? (fun l => l.filePath == f) = some L)
    (hstale : (now : Int) - (L.timestamp : Int) > (timeout : Int)) :
    ((proposeFileAccess timeout B f intent prompt now s).2 = .granted
      ∧ (recValues (proposeFileAccess timeout B f intent prompt now s).1.locks).find?
          (fun l => l.filePath == f) =
          some { agentId := B, filePath := f, intent := intent,
                 userPrompt := prompt, timestamp := now }
      ∧ LOCK_TIMEOUT_DEFAULT = 30 * 60 * 1000)
    ∧ (∀ n ts t : Nat, lockLive n ts t = true ↔ (n : Int) - (ts : Int) ≤ (t : Int)) := by
  have hs : isStale now L.timestamp timeout = true := by
    simp [isStale]
    omega
  refine ⟨⟨?_, ?_, rfl⟩, ?_⟩
  · simp [proposeFileAccess, hfind, hs]
  · simp only [proposeFileAccess, hfind, hs, Bool.not_true, Bool.false_and,
      Bool.false_eq_true, if_false, appendNotepad]
    exact find_recValues_setEntry s.locks f _ hkeys rfl
  · intro n ts t
    simp [lockLive, isStale]

/-- **C4 witness.** A stale lock by A on `src/x.ts` (timestamp 0) is
    reclaimed by B at a time past the default TTL. -/
theorem proposeFileAccess_ttl_reclaim_witness :
    ((proposeFileAccess LOCK_TIMEOUT_DEFAULT "B" "src/x.ts" "edit" "p"
        1800001 sL).2 = .granted
      ∧ (recValues (proposeFileAccess LOCK_TIMEOUT_DEFAULT "B" "src/x.ts"
          "edit" "p" 1800001 sL).1.locks).find?
          (fun l => l.filePath == "src/x.ts") =
          some { agentId := "B", filePath := "src/x.ts", intent := "edit",
                 userPrompt := "p", timestamp := 1800001 }
      ∧ LOCK_TIMEOUT_DEFAULT = 30 * 60 * 1000)
    ∧ (∀ n ts t : Nat, lockLive n ts t = true ↔
        (n : Int) - (ts : Int) ≤ (t : Int)) :=
  proposeFileAccess_ttl_reclaim LOCK_TIMEOUT_DEFAULT sL "B" "src/x.ts"
    "edit" "p" 1800001 lockA (by decide) (by decide) (by decide)

/-- **C5.** For every file f holding a live lock L owned by agent A, a
    `propose_file_access` by a different agent B returns
    REQUIRES_ORCHESTRATION carrying the incumbent lock L itself (hence A's
    agent id and intent), and the entire state — the lock on f, every other
    lock, all jobs and the notepad — is unchanged. -/
theorem proposeFileAccess_conflict (timeout : Nat) (s : NCState)
    (B f intent prompt : String) (now : Nat) (L : FileLock)
    (hfind : (recValues s.locks).find? (fun l => l.filePath == f) = some L)
    (hlive : (now : Int) - (L.timestamp : Int) ≤ (timeout : Int))
    (hdiff : L.agentId ≠ B) :
    proposeFileAccess timeout B f intent prompt now s =
      (s, .requiresOrchestration L) := by
  have hs : isStale now L.timestamp timeout = false := by
    simp [isStale]
    omega
  have hd : (L.agentId == B) = false := by simp [hdiff]
  simp [proposeFileAccess, hfind, hs, hd]

/-- **C5 witness.** Scenario S1: B proposes access to `src/x.ts` while A's
    live lock is in place; the call is refused with A's lock returned and
    the state identical. -/
theorem proposeFileAccess_conflict_witness :
    proposeFileAccess LOCK_TIMEOUT_DEFAULT "B" "src/x.ts" "edit" "prompt-b"
      100 sL = (sL, .requiresOrchestration lockA) :=
  proposeFileAccess_conflict LOCK_TIMEOUT_DEFAULT sL "B" "src/x.ts" "edit"
    "prompt-b" 100 lockA (by decide) (by decide) (by decide)

/-- **C7 (amended).** After `finalize_session` returns SESSION_FINALIZED:
    the project has zero locks, zero jobs in done or cancelled, the jobs in
    todo or in_progress survive unchanged (the jobs map equals its own
    filtering to non-terminal statuses), and the notepad equals the reset
    marker `"Session Start: " ++ iso ++ "\n"`.  The archive containing the
    pre-finalize notepad exists only when the archive write succeeded: a
    failed write is merely logged and finalize still reports
    SESSION_FINALIZED (see the counterexample). -/
theorem finalizeSession_postconditions (s : NCState) (iso : String)
    (ok : Bool) :
    (finalizeSession iso ok s).2.status = "SESSION_FINALIZED"
    ∧ (finalizeSession iso ok s).1.locks = []
    ∧ (∀ e ∈ (finalizeSession iso ok s).1.jobs,
        e.2.status ≠ .done ∧ e.2.status ≠ .cancelled)
    ∧ (finalizeSession iso ok s).1.jobs =
        s.jobs.filter (fun e =>
          !(e.2.status == .done) && !(e.2.status == .cancelled))
    ∧ (finalizeSession iso ok s).1.liveNotepad =
        "Session Start: " ++ iso ++ "\n"
    ∧ (ok = true → (finalizeSession iso ok s).2.archive = some s.liveNotepad) := by
  refine ⟨rfl, rfl, ?_, rfl, rfl, ?_⟩
  · intro e he
    have := (List.mem_filter.mp he).2
    simp only [Bool.and_eq_true, Bool.not_eq_true', beq_eq_false_iff_ne,
      ne_eq] at this
    exact this
  · intro hok
    simp [finalizeSession, hok]

/-- **C7 witness.** Finalizing `sF` (one done job, one todo job, one lock,
    notepad `"NOTES"`) with a successful archive write: the archive holds
    the pre-finalize notepad. -/
theorem finalizeSession_postconditions_witness :
    (finalizeSession "2024-01-01T00:00:00.000Z" true sF).2.archive =
        some "NOTES"
    ∧ (finalizeSession "2024-01-01T00:00:00.000Z" true sF).1.locks = [] :=
  ⟨(finalizeSession_postconditions sF "2024-01-01T00:00:00.000Z"
      true).2.2.2.2.2 rfl,
   (finalizeSession_postconditions sF "2024-01-01T00:00:00.000Z"
      true).2.1⟩

/-- **C7 counterexample.** The claim as stated is false: when the archive
    write fails, `finalize_session` still returns SESSION_FINALIZED with an
    archive path, but no archive containing the pre-finalize notepad
    exists. -/
theorem finalizeSession_archive_counterexample :
    (finalizeSession "2024-01-01T00:00:00.000Z" false sF).2.status =
        "SESSION_FINALIZED"
    ∧ (finalizeSession "2024-01-01T00:00:00.000Z" false sF).2.archive =
        none := by
  decide

/-- **C8 (amended).** If writing the session archive fails during
    `finalize_session`, the operation does **not** abort: the failure is
    only logged, the live state is reset exactly as on a successful write
    (locks cleared, terminal jobs deleted, notepad reset), and
    SESSION_FINALIZED is still returned. -/
theorem finalizeSession_archive_failure_proceeds (s : NCState)
    (iso : String) :
    (finalizeSession iso false s).1 = (finalizeSession iso true s).1
    ∧ (finalizeSession iso false s).2.status = "SESSION_FINALIZED"
    ∧ (finalizeSession iso false s).1.locks = []
    ∧ (finalizeSession iso false s).1.liveNotepad =
        "Session Start: " ++ iso ++ "\n"
    ∧ (finalizeSession iso false s).1.jobs =
        s.jobs.filter (fun e =>
          !(e.2.status == .done) && !(e.2.status == .cancelled)) :=
  ⟨rfl, rfl, rfl, rfl, rfl⟩

/-- **C8 counterexample.** The claim as stated is false: with the archive
    write failing on `sF`, the live state is mutated (the lock and the done
    job disappear, the notepad is reset) instead of being left exactly as
    before the call. -/
theorem finalizeSession_no_abort_counterexample :
    (finalizeSession "2024-01-01T00:00:00.000Z" false sF).2.archive = none
    ∧ (finalizeSession "2024-01-01T00:00:00.000Z" false sF).1 ≠ sF
    ∧ (finalizeSession "2024-01-01T00:00:00.000Z" false sF).1.locks = []
    ∧ sF.locks ≠ [] := by
  decide

/-- **C9.** The completion key is
    `Math.random().toString(36).substring(2, 10).toUpperCase()`.  The
    alphabet is uppercase alphanumeric, but the generator is `Math.random`
    (not a cryptographic PRNG) and the key can be shorter than 8
    characters: `Math.random() = 0.5` stringifies in base 36 as `"0.i"` and
    yields the 1-character key `"I"`; `Math.random() = 0` stringifies as
    `"0"` and yields the empty key — contradicting the repo's own test,
    which asserts `completionKey.length === 8`. -/
theorem genCompletionKey_short :
    genCompletionKey "0.i" = "I"
    ∧ (genCompletionKey "0.i").length = 1
    ∧ genCompletionKey "0" = ""
    ∧ (genCompletionKey "0").length = 0 := by
  decide

/-- **C10 (amended).** The actual job status machine: `claim_next_job`
    moves only todo jobs to in_progress; but `complete_job`, whenever its
    authorisation passes, sets the status to done from **any** prior status
    (todo, done or cancelled included), and `cancel_job` sets the status to
    cancelled for any existing job from **any** prior status (done
    included).  Hence done and cancelled are not sinks (see the
    counterexample). -/
theorem job_status_transitions :
    (∀ (s : NCState) (a : String) (now : Nat) (s' : NCState) (j : Job),
        claimNextJob a now s = (s', .claimed j) →
        j.status = .inProgress
        ∧ ∃ j0 ∈ recValues s.jobs, j0.id = j.id ∧ j0.status = .todo)
    ∧ (∀ (s : NCState) (a jobId outcome : String) (key : Option String)
        (now : Nat) (job : Job), getEntry s.jobs jobId = some job →
        (completeJob a jobId outcome key now s).2 = .completed →
        getEntry (completeJob a jobId outcome key now s).1.jobs jobId =
          some { job with status := .done, updatedAt := now })
    ∧ (∀ (s : NCState) (jobId reason : String) (now : Nat) (job : Job),
        getEntry s.jobs jobId = some job →
        getEntry (cancelJob jobId reason now s).1.jobs jobId =
          some { job with status := .cancelled, updatedAt := now }) := by
  refine ⟨?_, ?_, ?_⟩
  · intro s a now s' j h
    unfold claimNextJob at h
    cases hav : availableJobs s with
    | nil => rw [hav] at h; cases h
    | cons candidate rest =>
      rw [hav] at h
      simp only [Prod.mk.injEq, ClaimResult.claimed.injEq] at h
      obtain ⟨hs1, hj⟩ := h
      have hmem : candidate ∈ availableJobs s := by
        rw [hav]
        exact List.mem_cons_self candidate rest
      have helig : candidate ∈
          ((recValues s.jobs).filter (fun j => j.status == JobStatus.todo)).filter
            (fun j => depsMet (recValues s.jobs) j) :=
        (List.mem_insertionSort JobLE).mp hmem
      have hval : candidate ∈ recValues s.jobs :=
        List.mem_of_mem_filter (List.mem_of_mem_filter helig)
      have htodo : candidate.status = .todo := by
        have h2 := (List.mem_filter.mp (List.mem_of_mem_filter helig)).2
        simpa using h2
      constructor
      · rw [← hj]
      · exact ⟨candidate, hval, by rw [← hj], htodo⟩
  · intro s a jobId outcome key now job hj hcomp
    by_cases hcc : (!(job.assignedTo == some a) && !(keyValid job key)) = true
    · exfalso
      simp [completeJob, hj, hcc] at hcomp
    · have hcc' : (!(job.assignedTo == some a) && !(keyValid job key)) =
          false := by
        cases h : (!(job.assignedTo == some a) && !(keyValid job key))
        · rfl
        · exact absurd h hcc
      simp only [completeJob, hj, hcc', Bool.false_eq_true, if_false,
        appendNotepad]
      exact getEntry_setEntry_self s.jobs jobId _
  · intro s jobId reason now job hj
    simp only [cancelJob, hj, appendNotepad]
    exact getEntry_setEntry_self s.jobs jobId _

/-- `proposeFileAccess` never touches the job board. -/
theorem proposeFileAccess_jobs (tmo : Nat) (a f i p : String) (n : Nat)
    (s : NCState) : (proposeFileAccess tmo a f i p n s).1.jobs = s.jobs := by
  unfold proposeFileAccess
  cases hfind : (recValues s.locks).find? (fun l => l.filePath == f) with
  | none => simp [hfind, appendNotepad]
  | some ex =>
    by_cases hc : (!(isStale n ex.timestamp tmo) && !(ex.agentId == a)) = true
    · simp [hfind, hc]
    · simp [hfind, hc, appendNotepad]

/-- `forceUnlock` never touches the job board. -/
theorem forceUnlock_jobs (f r : String) (s : NCState) :
    (forceUnlock f r s).1.jobs = s.jobs := by
  unfold forceUnlock
  cases hget : getEntry s.locks f <;> simp [hget, appendNotepad, delEntry]

/-- Every operation preserves well-formedness of the job board. -/
theorem wf_applyOp (s : NCState) (op : Op) (hwf : Wf s) :
    Wf (applyOp s op) := by
  obtain ⟨hnd, hids⟩ := hwf
  have hset : ∀ (k : String) (v : Job), v.id = k →
      ((setEntry s.jobs k v).map (fun e => e.1)).Nodup
      ∧ ∀ e ∈ setEntry s.jobs k v, e.2.id = e.1 := by
    intro k v hid
    refine ⟨nodup_keys_setEntry k v hnd, ?_⟩
    intro e he
    rcases mem_setEntry he with he' | he'
    · rw [he']
      exact hid
    · exact hids e he'
  cases op with
  | post id key now t d p deps =>
    exact hset id _ rfl
  | claim a now =>
    show Wf (claimNextJob a now s).1
    unfold claimNextJob
    cases hav : availableJobs s with
    | nil => exact ⟨hnd, hids⟩
    | cons candidate rest =>
      simp only [appendNotepad]
      exact hset candidate.id _ rfl
  | complete a jobId o k now =>
    show Wf (completeJob a jobId o k now s).1
    unfold completeJob
    cases hj : getEntry s.jobs jobId with
    | none => exact ⟨hnd, hids⟩
    | some job =>
      by_cases hc : (!(job.assignedTo == some a) && !(keyValid job k)) = true
      · simp only [hc, if_true]
        exact ⟨hnd, hids⟩
      · have hc' : (!(job.assignedTo == some a) && !(keyValid job k)) =
            false := by
          cases h : (!(job.assignedTo == some a) && !(keyValid job k))
          · rfl
          · exact absurd h hc
        simp only [hc', Bool.false_eq_true, if_false, appendNotepad]
        have hjid : job.id = jobId := hids (jobId, job) (getEntry_mem hj)
        exact hset jobId _ hjid
  | cancel jobId r now =>
    show Wf (cancelJob jobId r now s).1
    unfold cancelJob
    cases hj : getEntry s.jobs jobId with
    | none => exact ⟨hnd, hids⟩
    | some job =>
      simp only [appendNotepad]
      have hjid : job.id = jobId := hids (jobId, job) (getEntry_mem hj)
      exact hset jobId _ hjid
  | propose tmo a f i p now =>
    show Wf (proposeFileAccess tmo a f i p now s).1
    constructor
    · rw [proposeFileAccess_jobs]
      exact hnd
    · rw [proposeFileAccess_jobs]
      exact hids
  | unlock f r =>
    show Wf (forceUnlock f r s).1
    constructor
    · rw [forceUnlock_jobs]
      exact hnd
    · rw [forceUnlock_jobs]
      exact hids
  | note a t =>
    exact ⟨hnd, hids⟩
  | finalize iso ok =>
    constructor
    · exact List.Nodup.sublist
        (List.Sublist.map _ (List.filter_sublist s.jobs)) hnd
    · intro e he
      exact hids e (List.mem_of_mem_filter he)

/-- No operation whose post id differs from `jid` can bring the job `jid`
    back to status todo. -/
theorem notTodo_applyOp (s : NCState) (op : Op) (jid : String) (hwf : Wf s)
    (hnt : NotTodo s jid) (hpost : postId op ≠ some jid) :
    NotTodo (applyOp s op) jid := by
  have hset_ne : ∀ (k : String) (v : Job), jid ≠ k →
      (∀ j, getEntry (setEntry s.jobs k v) jid = some j → j.status ≠ .todo) := by
    intro k v hne j hg
    rw [getEntry_setEntry_ne s.jobs k jid v hne] at hg
    exact hnt j hg
  cases op with
  | post id key now t d p deps =>
    have hne : jid ≠ id := by
      intro h
      exact hpost (by simp [postId, h])
    intro j hg
    exact hset_ne id _ hne j hg
  | claim a now =>
    show NotTodo (claimNextJob a now s).1 jid
    unfold claimNextJob
    cases hav : availableJobs s with
    | nil => exact hnt
    | cons candidate rest =>
      simp only [appendNotepad]
      by_cases hj : jid = candidate.id
      · intro j0 hg
        rw [hj, getEntry_setEntry_self] at hg
        cases hg
        simp
      · exact hset_ne candidate.id _ hj
  | complete a jobId o k now =>
    show NotTodo (completeJob a jobId o k now s).1 jid
    unfold completeJob
    cases hjb : getEntry s.jobs jobId with
    | none => exact hnt
    | some job =>
      by_cases hc : (!(job.assignedTo == some a) && !(keyValid job k)) = true
      · simp only [hc, if_true]
        exact hnt
      · have hc' : (!(job.assignedTo == some a) && !(keyValid job k)) =
            false := by
          cases h : (!(job.assignedTo == some a) && !(keyValid job k))
          · rfl
          · exact absurd h hc
        simp only [hc', Bool.false_eq_true, if_false, appendNotepad]
        by_cases hj : jid = jobId
        · intro j0 hg
          rw [hj, getEntry_setEntry_self] at hg
          cases hg
          simp
        · exact hset_ne jobId _ hj
  | cancel jobId r now =>
    show NotTodo (cancelJob jobId r now s).1 jid
    unfold cancelJob
    cases hjb : getEntry s.jobs jobId with
    | none => exact hnt
    | some job =>
      simp only [appendNotepad]
      by_cases hj : jid = jobId
      · intro j0 hg
        rw [hj, getEntry_setEntry_self] at hg
        cases hg
        simp
      · exact hset_ne jobId _ hj
  | propose tmo a f i p now =>
    show NotTodo (proposeFileAccess tmo a f i p now s).1 jid
    intro j hg
    rw [proposeFileAccess_jobs] at hg
    exact hnt j hg
  | unlock f r =>
    show NotTodo (forceUnlock f r s).1 jid
    intro j hg
    rw [forceUnlock_jobs] at hg
    exact hnt j hg
  | note a t =>
    exact hnt
  | finalize iso ok =>
    intro j hg
    exact hnt j (getEntry_filter_nodup hwf.1 hg)

/-- In a well-formed state where the job `jid` is no longer todo, no single
    operation claims `jid`. -/
theorem claimedId_ne_of_notTodo (s : NCState) (op : Op) (jid : String)
    (hwf : Wf s) (hnt : NotTodo s jid) : claimedId s op ≠ some jid := by
  cases op with
  | claim a now =>
    unfold claimedId
    cases hav : availableJobs s with
    | nil =>
      unfold claimNextJob
      rw [hav]
      simp [resultId]
    | cons candidate rest =>
      unfold claimNextJob
      rw [hav]
      simp only [resultId]
      intro hid
      have hid' : candidate.id = jid := by simpa using hid
      have hmem : candidate ∈ availableJobs s := by
        rw [hav]
        exact List.mem_cons_self candidate rest
      have helig : candidate ∈
          ((recValues s.jobs).filter (fun j => j.status == JobStatus.todo)).filter
            (fun j => depsMet (recValues s.jobs) j) :=
        (List.mem_insertionSort JobLE).mp hmem
      have htodo : candidate.status = .todo := by
        have h2 := (List.mem_filter.mp (List.mem_of_mem_filter helig)).2
        simpa using h2
      have hval : candidate ∈ recValues s.jobs :=
        List.mem_of_mem_filter (List.mem_of_mem_filter helig)
      obtain ⟨e, he, he2⟩ := List.mem_map.mp hval
      have he1 : e.1 = candidate.id := by
        rw [← hwf.2 e he, he2]
      have hent : (candidate.id, candidate) ∈ s.jobs := by
        have : e = (candidate.id, candidate) := by
          cases e
          simp only at he1 he2
          rw [he1, he2]
        rw [← this]
        exact he
      have hg : getEntry s.jobs candidate.id = some candidate :=
        getEntry_of_mem_nodup hwf.1 hent
      rw [hid'] at hg
      exact hnt candidate hg htodo
  | post id key now t d p deps => simp [claimedId]
  | complete a j o k now => simp [claimedId]
  | cancel j r now => simp [claimedId]
  | propose tmo a f i p now => simp [claimedId]
  | unlock f r => simp [claimedId]
  | note a t => simp [claimedId]
  | finalize iso ok => simp [claimedId]

/-- After a successful claim, the claimed job's stored status is
    in_progress: it is no longer todo. -/
theorem claim_notTodo_after (s : NCState) (a : String) (now : Nat)
    (s' : NCState) (j : Job)
    (h : claimNextJob a now s = (s', .claimed j)) : NotTodo s' j.id := by
  unfold claimNextJob at h
  cases hav : availableJobs s with
  | nil =>
    rw [hav] at h
    cases h
  | cons candidate rest =>
    rw [hav] at h
    simp only [Prod.mk.injEq, ClaimResult.claimed.injEq] at h
    obtain ⟨hs1, hj⟩ := h
    intro j0 hg
    rw [← hs1] at hg
    simp only [appendNotepad] at hg
    have hjid : j.id = candidate.id := by
      rw [← hj]
    rw [hjid] at hg
    rw [getEntry_setEntry_self] at hg
    cases hg
    simp

/-- Once the job `jid` is not todo in a well-formed state, no claim along
    any operation sequence that never re-posts under `jid` ever claims it. -/
theorem notTodo_run_claims (jid : String) :
    ∀ (ops : List Op) (s : NCState), Wf s → NotTodo s jid →
      (∀ op ∈ ops, postId op ≠ some jid) →
      ∀ pre op post, ops = pre ++ op :: post →
        claimedId (run s pre) op ≠ some jid := by
  intro ops
  induction ops with
  | nil =>
    intro s _ _ _ pre op post heq
    cases pre <;> simp at heq
  | cons o rest ih =>
    intro s hwf hnt hfresh pre op post heq
    cases pre with
    | nil =>
      simp only [List.nil_append, List.cons.injEq] at heq
      obtain ⟨ho, -⟩ := heq
      subst ho
      exact claimedId_ne_of_notTodo s o jid hwf hnt
    | cons p pre' =>
      simp only [List.cons_append, List.cons.injEq] at heq
      obtain ⟨hop, hrest⟩ := heq
      subst hop
      have hp : postId o ≠ some jid := hfresh o (List.mem_cons_self o rest)
      have hfresh' : ∀ op' ∈ rest, postId op' ≠ some jid :=
        fun op' h' => hfresh op' (List.mem_cons_of_mem o h')
      have hrec := ih (applyOp s o) (wf_applyOp s o hwf)
        (notTodo_applyOp s o jid hwf hnt hp) hfresh' pre' op post hrest
      simpa [run, List.foldl] using hrec

/-- **C6.** Claim uniqueness: once a `claim_next_job` call has returned
    CLAIMED with job J from a well-formed state, no later
    `claim_next_job` — across any sequence of facade operations in which no
    post reuses J's id (ids are freshly generated) — ever returns CLAIMED
    with J again: every later claim returns a different job or
    NO_JOBS_AVAILABLE. -/
theorem claim_uniqueness (s : NCState) (agent : String) (now : Nat)
    (s' : NCState) (j : Job) (hwf : Wf s)
    (hclaim : claimNextJob agent now s = (s', .claimed j))
    (ops : List Op) (hfresh : ∀ op ∈ ops, postId op ≠ some j.id) :
    ∀ pre op post, ops = pre ++ op :: post →
      claimedId (run s' pre) op ≠ some j.id := by
  have hs' : applyOp s (.claim agent now) = s' := by
    simp [applyOp, hclaim]
  have hwf' : Wf s' := hs' ▸ wf_applyOp s (.claim agent now) hwf
  have hnt' : NotTodo s' j.id := claim_notTodo_after s agent now s' j hclaim
  exact notTodo_run_claims j.id ops s' hwf' hnt' hfresh

/-- **C6 witness.** After agent A claims the single job of `sW`, an
    immediate second claim by agent B does not claim it again (`sW1` is
    `sW` after A's claim, and the job board is exhausted). -/
theorem claim_uniqueness_witness :
    claimedId (run sW1 []) (Op.claim "B" 3) ≠ some jW.id :=
  claim_uniqueness sW "A" 2 sW1 jW ⟨by decide, by decide⟩ (by decide)
    [Op.claim "B" 3] (by decide) [] (Op.claim "B" 3) [] rfl

/-- **C10 witness.** Cancelling the done job of `sF` moves it to
    cancelled: done is not a sink for `cancel_job`. -/
theorem job_status_transitions_witness :
    getEntry (cancelJob "d1" "rollback" 9 sF).1.jobs "d1" =
      some { jD with status := .cancelled, updatedAt := 9 } :=
  job_status_transitions.2.2 sF "d1" "rollback" 9 jD (by decide)

/-- **C10 counterexample.** The claim as stated is false: in `sX` job j1 is
    cancelled, yet `complete_job` by its assignee returns COMPLETED and
    moves it to done — cancelled is not a sink, and the transition
    cancelled → done is admitted. -/
theorem job_status_sinks_counterexample :
    (getEntry sX.jobs "j1").map (fun j => j.status) = some .cancelled
    ∧ (completeJob "A" "j1" "out" none 9 sX).2 = .completed
    ∧ (getEntry (completeJob "A" "j1" "out" none 9 sX).1.jobs "j1").map
        (fun j => j.status) = some .done := by
  decide

/-- **C2.** `claim_next_job` returns, among the todo jobs whose direct
    dependencies are all done, one that is best under the ranking
    (priority critical > high > medium > low, ties by oldest created_at —
    the relation `JobLE`, cf. `jobLE_iff`), moved to in_progress and
    assigned to the caller; it returns NO_JOBS_AVAILABLE when no eligible
    job exists.  In particular, after posting J1 (medium), J2 (high),
    J3 (high) in that order, three successive claims return J2, J3, J1. -/
theorem claimNextJob_selection :
    (∀ (s : NCState) (a : String) (now : Nat),
        eligibleJobs s = [] → claimNextJob a now s = (s, .noJobs))
    ∧ (∀ (s : NCState) (a : String) (now : Nat) (s' : NCState) (j : Job),
        claimNextJob a now s = (s', .claimed j) →
        ∃ j0 ∈ eligibleJobs s,
          j = { j0 with
                status := .inProgress, assignedTo := some a, updatedAt := now }
          ∧ ∀ k ∈ eligibleJobs s, JobLE j0 k)
    ∧ (resultId (claimNextJob "A" 4 s4c).2 = some "J2"
       ∧ resultId (claimNextJob "B" 5 (claimNextJob "A" 4 s4c).1).2 =
           some "J3"
       ∧ resultId (claimNextJob "C" 6
           (claimNextJob "B" 5 (claimNextJob "A" 4 s4c).1).1).2 =
           some "J1") := by
  refine ⟨?_, ?_, by decide⟩
  · intro s a now h
    have hav : availableJobs s = [] := by
      unfold availableJobs
      rw [h]
      rfl
    unfold claimNextJob
    rw [hav]
  · intro s a now s' j h
    unfold claimNextJob at h
    cases hav : availableJobs s with
    | nil =>
      rw [hav] at h
      cases h
    | cons candidate rest =>
      rw [hav] at h
      simp only [Prod.mk.injEq, ClaimResult.claimed.injEq] at h
      obtain ⟨hs1, hj⟩ := h
      have hmem : candidate ∈ availableJobs s := by
        rw [hav]
        exact List.mem_cons_self candidate rest
      have hsorted : List.Sorted JobLE (candidate :: rest) := by
        have hs0 : List.Sorted JobLE (availableJobs s) :=
          List.sorted_insertionSort JobLE (eligibleJobs s)
        rw [hav] at hs0
        exact hs0
      refine ⟨candidate, (List.mem_insertionSort JobLE).mp hmem, hj.symm, ?_⟩
      intro k hk
      have hk' : k ∈ candidate :: rest := by
        rw [← hav]
        exact (List.mem_insertionSort JobLE).mpr hk
      rcases List.mem_cons.mp hk' with hke | hkr
      · rw [hke]
        exact jobLE_refl candidate
      · exact List.rel_of_sorted_cons hsorted k hkr

/-- **C2 witness.** On the empty board no job is eligible and the claim
    reports NO_JOBS_AVAILABLE. -/
theorem claimNextJob_selection_witness :
    claimNextJob "Z" 0 (ncInit "I") = (ncInit "I", .noJobs) :=
  claimNextJob_selection.1 (ncInit "I") "Z" 0 (by decide)

/-- **C3.** A job with any direct dependency not in done (cancelled,
    in_progress, todo, or naming no existing job) is never returned by
    `claim_next_job`: every dependency of a claimed job resolves to an
    existing job in status done.  Only direct dependencies are inspected:
    in `sT`, job C (depending on the done job B) is claimed even though
    B's own dependency A is still todo. -/
theorem claimNextJob_dependency_gating :
    (∀ (s : NCState) (a : String) (now : Nat) (s' : NCState) (j : Job),
        claimNextJob a now s = (s', .claimed j) →
        ∀ d ∈ depsOf j, ∃ dep, mapGetJob (recValues s.jobs) d = some dep
          ∧ dep.status = .done)
    ∧ (resultId (claimNextJob "X" 10 sT).2 = some "C"
       ∧ (getEntry sT.jobs "C").map (fun j => j.dependencies) =
           some (some ["B"])
       ∧ (getEntry sT.jobs "B").map (fun j => j.status) = some .done
       ∧ (getEntry sT.jobs "B").map (fun j => j.dependencies) =
           some (some ["A"])
       ∧ (getEntry sT.jobs "A").map (fun j => j.status) = some .todo) := by
  refine ⟨?_, by decide⟩
  intro s a now s' j h
  unfold claimNextJob at h
  cases hav : availableJobs s with
  | nil =>
    rw [hav] at h
    cases h
  | cons candidate rest =>
    rw [hav] at h
    simp only [Prod.mk.injEq, ClaimResult.claimed.injEq] at h
    obtain ⟨hs1, hj⟩ := h
    have hmem : candidate ∈ availableJobs s := by
      rw [hav]
      exact List.mem_cons_self candidate rest
    have helig : candidate ∈
        ((recValues s.jobs).filter (fun j => j.status == JobStatus.todo)).filter
          (fun j => depsMet (recValues s.jobs) j) :=
      (List.mem_insertionSort JobLE).mp hmem
    have hdm : depsMet (recValues s.jobs) candidate = true :=
      (List.mem_filter.mp helig).2
    unfold depsMet at hdm
    rw [List.all_eq_true] at hdm
    intro d hd
    have hd' : d ∈ depsOf candidate := by
      rw [← hj] at hd
      exact hd
    have hdone := hdm d hd'
    cases hm : mapGetJob (recValues s.jobs) d with
    | none =>
      rw [hm] at hdone
      cases hdone
    | some dep =>
      rw [hm] at hdone
      refine ⟨dep, rfl, ?_⟩
      simpa using hdone

/-- **C3 witness.** The gating theorem applied to the concrete claim on
    `sT`: the claimed job's single dependency B is present and done. -/
theorem claimNextJob_dependency_gating_witness :
    ∀ d ∈ depsOf jT, ∃ dep, mapGetJob (recValues sT.jobs) d = some dep
      ∧ dep.status = .done :=
  claimNextJob_dependency_gating.1 sT "X" 10 sT1 jT (by decide)

/-- **C1 counterexample.** The claim as stated is false: in the reachable
    state `sE1` the stored completion key is the empty string (generated
    from `Math.random() = 0`), agent B supplies exactly that key — equal to
    the stored key — yet `completeJob` returns an error, because the JS
    test `completionKey && …` treats `""` as false. -/
theorem completeJob_authorisation_counterexample :
    getEntry sE1.jobs "j1" = some jE
    ∧ jE.completionKey = some ""
    ∧ jE.assignedTo = some "A"
    ∧ (completeJob "B" "j1" "x" (some "") 5 sE1).2 =
        .error "You don't own this job and provided no valid key." := by
  decide

end Axis
